import Mathlib

/-!
Verification of the scene-segment video assembly routine of
`the-creator-station` (`src/render.js`) against its specification.

The development shallowly embeds `renderMp4` and its helpers: JSON values
are an inductive type, the zod `Manifest` schema becomes a checking
parser, the staging sort and the per-scene ffmpeg argument lists are
built exactly as the source builds them, and every filesystem or
subprocess side effect of a render is recorded in an event trace.
Subprocess outcomes are supplied by an oracle `exec` mapping an argument
list to the exit code and stderr of that invocation.
-/

namespace CreatorStation

/-- A JSON value as produced by `JSON.parse`: numbers are modelled as
rationals (every finite double is rational), objects as association
lists.  `JSON.parse` yields objects with unique keys (last duplicate
wins), which field lookup below respects. -/
inductive Json where
  | null : Json
  | bool (b : Bool) : Json
  | num (q : Rat) : Json
  | str (s : String) : Json
  | arr (items : List Json) : Json
  | obj (fields : List (String × Json)) : Json

/-- Field access on a parsed JSON object.  `JSON.parse` keeps the last
occurrence of a duplicated key, so the lookup prefers later entries. -/
def lookupField (k : String) : List (String × Json) → Option Json
  | [] => none
  | (k2, v) :: rest =>
    match lookupField k rest with
    | some r => some r
    | none => if k2 = k then some v else none

/-- One parsed manifest scene, the output type of the zod schema at
render.js lines 11-16: `duration_sec` is `z.number().min(1).max(60)` and
`hasAudio` is `z.boolean().optional().default(false)`. -/
structure Scene where
  duration_sec : Rat
  hasAudio : Bool
deriving DecidableEq, Repr

/-- The parsed manifest: `scenes: z.array(...).min(1)`. -/
structure Manifest where
  scenes : List Scene
deriving DecidableEq, Repr

/-- Embedding of the element schema
`z.object({ duration_sec: z.number().min(1).max(60),
hasAudio: z.boolean().optional().default(false) })` (render.js 12-15):
the value must be a JSON object, `duration_sec` must be a number in
[1, 60], and `hasAudio`, when present, must be a boolean, defaulting to
`false` when absent.  Unknown keys are stripped, as zod does by
default. -/
def parseScene : Json → Except String Scene
  | .obj fields =>
    match lookupField "duration_sec" fields with
    | some (.num d) =>
      if 1 ≤ d then
        if d ≤ 60 then
          match lookupField "hasAudio" fields with
          | none => .ok ⟨d, false⟩
          | some (.bool b) => .ok ⟨d, b⟩
          | some _ => .error "hasAudio: Expected boolean"
        else .error "duration_sec: Number must be less than or equal to 60"
      else .error "duration_sec: Number must be greater than or equal to 1"
    | some _ => .error "duration_sec: Expected number"
    | none => .error "duration_sec: Required"
  | _ => .error "Expected object"

/-- Element-wise validation of the `scenes` array: zod checks each
element against the scene schema and fails on the first violation. -/
def parseScenes : List Json → Except String (List Scene)
  | [] => .ok []
  | j :: rest =>
    match parseScene j with
    | .error e => .error e
    | .ok sc =>
      match parseScenes rest with
      | .error e => .error e
      | .ok scs => .ok (sc :: scs)

/-- Embedding of the `Manifest` zod schema (render.js 11-16):
`z.object({ scenes: z.array(sceneSchema).min(1) })`.
`Manifest.parse` throws (here: returns `.error`) on any violation. -/
def Manifest.parse (j : Json) : Except String Manifest :=
  match j with
  | .obj fields =>
    match lookupField "scenes" fields with
    | some (.arr items) =>
      match parseScenes items with
      | .ok scenes =>
        if 1 ≤ scenes.length then .ok ⟨scenes⟩
        else .error "scenes: Array must contain at least 1 element(s)"
      | .error e => .error e
    | some _ => .error "scenes: Expected array"
    | none => .error "scenes: Required"
  | _ => .error "Expected object"

/-- Written from the spec (§4.1), for comparison with `Manifest.parse`:
an element is acceptable when it is an object with a numeric
`duration_sec` in the closed range [1, 60] and an optional boolean
`hasAudio`. -/
def specSceneOk (j : Json) : Bool :=
  match j with
  | .obj fields =>
    (match lookupField "duration_sec" fields with
     | some (.num d) => decide (1 ≤ d) && decide (d ≤ 60)
     | _ => false)
    &&
    (match lookupField "hasAudio" fields with
     | none => true
     | some (.bool _) => true
     | some _ => false)
  | _ => false

/-- Written from the spec (§4.1), for comparison with `Manifest.parse`:
the validator accepts only a JSON object with a `scenes` array of length
at least 1 whose elements all satisfy `specSceneOk`. -/
def specAccepts (j : Json) : Bool :=
  match j with
  | .obj fields =>
    match lookupField "scenes" fields with
    | some (.arr items) => decide (1 ≤ items.length) && items.all specSceneOk
    | _ => false
  | _ => false

theorem parseScene_isOk_eq (j : Json) : (parseScene j).isOk = specSceneOk j := by
  cases j with
  | obj fields =>
    simp only [parseScene, specSceneOk]
    cases lookupField "duration_sec" fields with
    | none => simp [Except.isOk, Except.toBool]
    | some v =>
      cases v <;> simp only []
      case num d =>
        by_cases h1 : 1 ≤ d <;> by_cases h2 : d ≤ 60 <;>
          simp only [h1, h2, if_true, if_false] <;>
          (cases lookupField "hasAudio" fields with
           | none => simp [Except.isOk, Except.toBool, h1, h2]
           | some w => cases w <;> simp [Except.isOk, Except.toBool, h1, h2])
      all_goals simp [Except.isOk, Except.toBool]
  | null => simp [parseScene, specSceneOk, Except.isOk, Except.toBool]
  | bool b => simp [parseScene, specSceneOk, Except.isOk, Except.toBool]
  | num q => simp [parseScene, specSceneOk, Except.isOk, Except.toBool]
  | str s => simp [parseScene, specSceneOk, Except.isOk, Except.toBool]
  | arr items => simp [parseScene, specSceneOk, Except.isOk, Except.toBool]

theorem parseScenes_isOk (items : List Json) :
    (parseScenes items).isOk = items.all specSceneOk := by
  induction items with
  | nil => simp [parseScenes, Except.isOk, Except.toBool]
  | cons a rest ih =>
    rw [List.all_cons, ← parseScene_isOk_eq a]
    simp only [parseScenes]
    cases h : parseScene a with
    | error e => simp [Except.isOk, Except.toBool]
    | ok sc =>
      cases h2 : parseScenes rest with
      | error e2 =>
        rw [h2] at ih
        simp [h, h2, Except.isOk, Except.toBool] at ih ⊢
        exact ih
      | ok scs =>
        rw [h2] at ih
        simp [h, h2, Except.isOk, Except.toBool] at ih ⊢
        exact ih

theorem parseScenes_length {items : List Json} {scenes : List Scene}
    (h : parseScenes items = .ok scenes) : scenes.length = items.length := by
  induction items generalizing scenes with
  | nil =>
    simp [parseScenes] at h
    simp [← h]
  | cons a rest ih =>
    simp only [parseScenes] at h
    cases ha : parseScene a with
    | error e => simp [ha] at h
    | ok sc =>
      cases h2 : parseScenes rest with
      | error e2 => simp [ha, h2] at h
      | ok scs =>
        simp [ha, h2] at h
        simp [← h, ih h2]

/-- Three-way comparison on naturals, the sign of a JavaScript
comparator value. -/
def natCmp (a b : Nat) : Ordering :=
  if a < b then .lt else if b < a then .gt else .eq

/-- Lexicographic three-way comparison of two weight sequences. -/
def natListCompare : List Nat → List Nat → Ordering
  | [], [] => .eq
  | [], _ :: _ => .lt
  | _ :: _, [] => .gt
  | a :: xs, b :: ys =>
    match natCmp a b with
    | .eq => natListCompare xs ys
    | o => o

/-- Primary collation weight of a character: letters compare with case
ignored and sort after every other character (`1114112` is past the
largest Unicode scalar value, and the odd offset keeps letter weights
disjoint from non-letter weights). -/
def primaryWeight (c : Char) : Nat :=
  if 97 ≤ c.toNat ∧ c.toNat ≤ 122 then 2 * (1114112 + (c.toNat - 97)) + 1
  else if 65 ≤ c.toNat ∧ c.toNat ≤ 90 then 2 * (1114112 + (c.toNat - 65)) + 1
  else 2 * c.toNat

/-- Tie-breaking weight: an uppercase letter sorts after the lowercase
letter with the same primary weight. -/
def caseWeight (c : Char) : Nat :=
  if 65 ≤ c.toNat ∧ c.toNat ≤ 90 then 1 else 0

/-- Model of `String.prototype.localeCompare` under the default locale,
restricted to what the ICU root collation does on ASCII: strings compare
primarily with letter case ignored (letters sorting after digits and
punctuation), and a lowercase letter sorts before its uppercase
counterpart at the tie-breaking level, so for example "a" precedes "B"
although byte-wise "B" precedes "a".  render.js lines 40-41 sort staged
files with `a.originalname.localeCompare(b.originalname)`. -/
def localeCompare (s t : String) : Ordering :=
  match natListCompare (s.toList.map primaryWeight) (t.toList.map primaryWeight) with
  | .eq => natListCompare (s.toList.map caseWeight) (t.toList.map caseWeight)
  | o => o

/-- One uploaded file as multer presents it to `renderMp4`: the
client-supplied original name and the server-side path of the stored
upload. -/
structure UFile where
  originalname : String
  path : String
deriving DecidableEq, Repr

/-- The ordering relation induced by the comparator at render.js lines
40-41: `a` may precede `b` exactly when
`a.originalname.localeCompare(b.originalname)` is nonpositive. -/
def byName (a b : UFile) : Prop :=
  localeCompare a.originalname b.originalname ≠ Ordering.gt

instance : DecidableRel byName := fun a b =>
  inferInstanceAs (Decidable (localeCompare a.originalname b.originalname ≠ Ordering.gt))

/-- Written from the spec (§4.2) for comparison with the code's sort:
"sorts each partition by original file name using byte-wise
lexicographic order".  UTF-8 byte order coincides with code-point
order, so code points are compared directly. -/
def byteCompare (s t : String) : Ordering :=
  natListCompare (s.toList.map Char.toNat) (t.toList.map Char.toNat)

/-- Written from the spec (§4.2): the byte-wise ordering relation on
uploaded files. -/
def byNameBytes (a b : UFile) : Prop :=
  byteCompare a.originalname b.originalname ≠ Ordering.gt

instance : DecidableRel byNameBytes := fun a b =>
  inferInstanceAs (Decidable (byteCompare a.originalname b.originalname ≠ Ordering.gt))

/-- The `files` argument of `renderMp4`; either field may be absent
(`files.images || []`, render.js lines 40-41). -/
structure Files where
  images : Option (List UFile)
  audios : Option (List UFile)
deriving DecidableEq, Repr

/-- Line 40: `(files.images || []).sort((a,b) =>
a.originalname.localeCompare(b.originalname))`.  JavaScript
`Array.prototype.sort` is a stable comparator sort, which
`List.insertionSort` reproduces. -/
def stagedImages (files : Files) : List UFile :=
  List.insertionSort byName (files.images.getD [])

/-- Line 41: the same stable sort applied to `files.audios || []`. -/
def stagedAudios (files : Files) : List UFile :=
  List.insertionSort byName (files.audios.getD [])

theorem natCmp_eq_iff {a b : Nat} : natCmp a b = .eq ↔ a = b := by
  unfold natCmp
  split
  · rename_i h
    simp
    omega
  · split
    · rename_i h h2
      simp
      omega
    · rename_i h h2
      simp
      omega

theorem natCmp_swap (a b : Nat) : (natCmp a b).swap = natCmp b a := by
  unfold natCmp
  rcases Nat.lt_trichotomy a b with h | h | h
  · simp [h, Nat.lt_asymm h, Ordering.swap]
  · subst h
    simp [Ordering.swap]
  · simp [h, Nat.lt_asymm h, Ordering.swap]

theorem natCmp_lt_iff {a b : Nat} : natCmp a b = .lt ↔ a < b := by
  unfold natCmp
  split
  · rename_i h
    simp [h]
  · split
    · rename_i h h2
      simp
      omega
    · rename_i h h2
      simp
      omega

theorem natListCompare_eq_iff : ∀ {xs ys : List Nat},
    natListCompare xs ys = .eq ↔ xs = ys := by
  intro xs
  induction xs with
  | nil => intro ys; cases ys <;> simp [natListCompare]
  | cons a l ih =>
    intro ys
    cases ys with
    | nil => simp [natListCompare]
    | cons b m =>
      simp only [natListCompare]
      cases h : natCmp a b with
      | eq =>
        rw [natCmp_eq_iff] at h
        subst h
        simp [ih]
      | lt =>
        have : a ≠ b := by
          intro he
          rw [natCmp_eq_iff.mpr he] at h
          cases h
        simp [this]
      | gt =>
        have : a ≠ b := by
          intro he
          rw [natCmp_eq_iff.mpr he] at h
          cases h
        simp [this]

theorem natListCompare_swap : ∀ (xs ys : List Nat),
    (natListCompare xs ys).swap = natListCompare ys xs := by
  intro xs
  induction xs with
  | nil => intro ys; cases ys <;> simp [natListCompare, Ordering.swap]
  | cons a l ih =>
    intro ys
    cases ys with
    | nil => simp [natListCompare, Ordering.swap]
    | cons b m =>
      simp only [natListCompare]
      cases h : natCmp a b with
      | eq =>
        have hba : natCmp b a = .eq := by
          rw [natCmp_eq_iff] at h ⊢
          omega
        rw [hba]
        exact ih m
      | lt =>
        have hba : natCmp b a = .gt := by
          rw [← natCmp_swap, h]
          rfl
        rw [hba]
        rfl
      | gt =>
        have hba : natCmp b a = .lt := by
          rw [← natCmp_swap, h]
          rfl
        rw [hba]
        rfl

theorem natListCompare_lt_trans : ∀ {xs ys zs : List Nat},
    natListCompare xs ys = .lt → natListCompare ys zs = .lt →
    natListCompare xs zs = .lt := by
  intro xs
  induction xs with
  | nil =>
    intro ys zs h1 h2
    cases ys with
    | nil => exact h2
    | cons b m =>
      cases zs with
      | nil => simp [natListCompare] at h2
      | cons c k => simp [natListCompare]
  | cons a l ih =>
    intro ys zs h1 h2
    cases ys with
    | nil => simp [natListCompare] at h1
    | cons b m =>
      cases zs with
      | nil => simp [natListCompare] at h2
      | cons c k =>
        simp only [natListCompare] at h1 h2 ⊢
        cases hab : natCmp a b with
        | gt =>
          rw [hab] at h1
          cases h1
        | lt =>
          cases hbc : natCmp b c with
          | gt =>
            rw [hbc] at h2
            cases h2
          | lt =>
            have hac : natCmp a c = .lt := by
              rw [natCmp_lt_iff] at hab hbc ⊢
              omega
            rw [hac]
          | eq =>
            have hbc2 := natCmp_eq_iff.mp hbc
            subst hbc2
            rw [hab]
        | eq =>
          have hab2 := natCmp_eq_iff.mp hab
          subst hab2
          rw [hab] at h1
          cases hbc : natCmp a c with
          | gt =>
            rw [hbc] at h2
            cases h2
          | lt => rfl
          | eq =>
            have hbc2 := natCmp_eq_iff.mp hbc
            subst hbc2
            rw [hab] at h2
            exact ih h1 h2

theorem charWeights_inj {c d : Char} (hp : primaryWeight c = primaryWeight d)
    (hc : caseWeight c = caseWeight d) : c = d := by
  have h : c.toNat = d.toNat := by
    unfold primaryWeight at hp
    unfold caseWeight at hc
    split_ifs at hp hc <;> omega
  exact Char.eq_of_val_eq (UInt32.ext h)

theorem charList_eq_of_weights : ∀ {l1 l2 : List Char},
    l1.map primaryWeight = l2.map primaryWeight →
    l1.map caseWeight = l2.map caseWeight → l1 = l2 := by
  intro l1
  induction l1 with
  | nil =>
    intro l2 hp _
    cases l2 with
    | nil => rfl
    | cons b m => simp at hp
  | cons a l ih =>
    intro l2 hp hc
    cases l2 with
    | nil => simp at hp
    | cons b m =>
      simp only [List.map_cons, List.cons.injEq] at hp hc
      rw [charWeights_inj hp.1 hc.1, ih hp.2 hc.2]

theorem localeCompare_eq_imp {s t : String} (h : localeCompare s t = .eq) :
    s = t := by
  unfold localeCompare at h
  cases hp : natListCompare (s.toList.map primaryWeight) (t.toList.map primaryWeight) with
  | eq =>
    rw [hp] at h
    have h1 := natListCompare_eq_iff.mp hp
    have h2 := natListCompare_eq_iff.mp h
    have h3 := charList_eq_of_weights h1 h2
    cases s with
    | mk d1 =>
      cases t with
      | mk d2 => exact congrArg String.mk h3
  | lt =>
    rw [hp] at h
    cases h
  | gt =>
    rw [hp] at h
    cases h

theorem localeCompare_refl (s : String) : localeCompare s s = .eq := by
  unfold localeCompare
  rw [natListCompare_eq_iff.mpr rfl, natListCompare_eq_iff.mpr rfl]

theorem localeCompare_swap (s t : String) :
    (localeCompare s t).swap = localeCompare t s := by
  unfold localeCompare
  cases hp : natListCompare (s.toList.map primaryWeight) (t.toList.map primaryWeight) with
  | eq =>
    have hp2 : natListCompare (t.toList.map primaryWeight) (s.toList.map primaryWeight) = .eq := by
      rw [← natListCompare_swap, hp]
      rfl
    rw [hp2]
    exact natListCompare_swap _ _
  | lt =>
    have hp2 : natListCompare (t.toList.map primaryWeight) (s.toList.map primaryWeight) = .gt := by
      rw [← natListCompare_swap, hp]
      rfl
    rw [hp2]
    rfl
  | gt =>
    have hp2 : natListCompare (t.toList.map primaryWeight) (s.toList.map primaryWeight) = .lt := by
      rw [← natListCompare_swap, hp]
      rfl
    rw [hp2]
    rfl

theorem localeCompare_lt_trans {s t u : String}
    (h1 : localeCompare s t = .lt) (h2 : localeCompare t u = .lt) :
    localeCompare s u = .lt := by
  unfold localeCompare at h1 h2 ⊢
  cases hp1 : natListCompare (s.toList.map primaryWeight) (t.toList.map primaryWeight) with
  | gt =>
    rw [hp1] at h1
    cases h1
  | lt =>
    cases hp2 : natListCompare (t.toList.map primaryWeight) (u.toList.map primaryWeight) with
    | gt =>
      rw [hp2] at h2
      cases h2
    | lt =>
      rw [natListCompare_lt_trans hp1 hp2]
    | eq =>
      have he := natListCompare_eq_iff.mp hp2
      rw [← he, hp1]
  | eq =>
    have he := natListCompare_eq_iff.mp hp1
    rw [hp1] at h1
    cases hp2 : natListCompare (t.toList.map primaryWeight) (u.toList.map primaryWeight) with
    | gt =>
      rw [hp2] at h2
      cases h2
    | lt =>
      rw [he, hp2]
    | eq =>
      rw [hp2] at h2
      have he2 := natListCompare_eq_iff.mp hp2
      rw [he, hp2]
      exact natListCompare_lt_trans h1 h2

theorem byName_total (a b : UFile) : byName a b ∨ byName b a := by
  unfold byName
  cases h : localeCompare a.originalname b.originalname with
  | gt =>
    right
    have h2 : localeCompare b.originalname a.originalname = .lt := by
      rw [← localeCompare_swap, h]
      rfl
    simp [h2]
  | lt =>
    left
    simp [h]
  | eq =>
    left
    simp [h]

theorem byName_trans {a b c : UFile} (h1 : byName a b) (h2 : byName b c) :
    byName a c := by
  unfold byName at h1 h2 ⊢
  cases hab : localeCompare a.originalname b.originalname with
  | gt => exact absurd hab h1
  | eq =>
    rw [localeCompare_eq_imp hab]
    exact h2
  | lt =>
    cases hbc : localeCompare b.originalname c.originalname with
    | gt => exact absurd hbc h2
    | eq =>
      rw [← localeCompare_eq_imp hbc]
      simp [hab]
    | lt =>
      simp [localeCompare_lt_trans hab hbc]

instance : IsTotal UFile byName := ⟨byName_total⟩

instance : IsTrans UFile byName := ⟨fun _ _ _ => byName_trans⟩

theorem byName_antisymm {a b : UFile} (h1 : byName a b) (h2 : byName b a) :
    a.originalname = b.originalname := by
  unfold byName at h1 h2
  cases h : localeCompare a.originalname b.originalname with
  | eq => exact localeCompare_eq_imp h
  | gt => exact absurd h h1
  | lt =>
    have h3 : localeCompare b.originalname a.originalname = .gt := by
      rw [← localeCompare_swap, h]
      rfl
    exact absurd h3 h2

/-- A permutation-invariance principle for sorted lists whose sort keys
are pairwise distinct: two sorted arrangements of the same multiset of
files coincide. -/
theorem sorted_perm_distinct_eq : ∀ {l1 l2 : List UFile},
    l1.Pairwise (fun a b => a.originalname ≠ b.originalname) →
    l1.Perm l2 → l1.Sorted byName → l2.Sorted byName → l1 = l2 := by
  intro l1
  induction l1 with
  | nil =>
    intro l2 _ hp _ _
    exact (List.perm_nil.mp hp.symm).symm
  | cons a t1 ih =>
    intro l2 hd hp hs1 hs2
    cases l2 with
    | nil => exact absurd (List.perm_nil.mp hp) (by simp)
    | cons b t2 =>
      have hab : a = b := by
        by_contra hne
        have hbmem : b ∈ a :: t1 := hp.mem_iff.mpr (List.mem_cons_self b t2)
        have hamem : a ∈ b :: t2 := hp.mem_iff.mp (List.mem_cons_self a t1)
        have hb1 : b ∈ t1 := by
          cases List.mem_cons.mp hbmem with
          | inl h => exact absurd h.symm hne
          | inr h => exact h
        have ha2 : a ∈ t2 := by
          cases List.mem_cons.mp hamem with
          | inl h => exact absurd h hne
          | inr h => exact h
        have r1 : byName a b := List.rel_of_sorted_cons hs1 b hb1
        have r2 : byName b a := List.rel_of_sorted_cons hs2 a ha2
        exact (List.pairwise_cons.mp hd).1 b hb1 (byName_antisymm r1 r2)
      subst hab
      exact congrArg (List.cons a)
        (ih (List.pairwise_cons.mp hd).2 hp.cons_inv hs1.of_cons hs2.of_cons)

/-- One element of a `spawn` argument vector.  The source builds these
as JavaScript strings; the `-t` argument is produced as `String(dur)`.
`String` is injective on numbers and ffmpeg's option parser reads the
decimal back, so a numeric argument is kept as its numeric value rather
than its decimal rendering. -/
inductive Arg where
  | s (v : String) : Arg
  | n (v : Rat) : Arg
deriving DecidableEq, Repr

/-- The observable filesystem and subprocess effects of one render, in
program order. -/
inductive Event where
  | mkdtemp (dir : String) : Event
  | mkdir (dir : String) : Event
  | spawn (cmd : String) (args : List Arg) (cwd : String) : Event
  | writeFile (path : String) (content : String) : Event
  | readFile (path : String) : Event
  | unlink (path : String) : Event
  | rmTree (dir : String) : Event
deriving DecidableEq, Repr

/-- Exit code and captured stderr of one subprocess invocation.  The
subprocess environment is modelled as an oracle from the argument
vector to this outcome. -/
structure RunRes where
  code : Int
  stderr : String
deriving DecidableEq, Repr

/-- The errors `renderMp4` can throw, one constructor per throw site:
`JSON.parse` failing (line 31), `Manifest.parse` failing (line 31), the
image-count check (lines 43-45), and `run`'s rejection
`ffmpeg failed (code): stderr` (line 25), which carries the exit code
and a stderr excerpt but no scene index. -/
inductive RErr where
  | jsonParse : RErr
  | zod (msg : String) : RErr
  | countMismatch (images scenes : Nat) : RErr
  | ffmpeg (code : Int) (stderr : String) : RErr
deriving DecidableEq, Repr

/-- Lines 18-28: `run` resolves when the subprocess exits 0 and rejects
with `ffmpeg failed (code): stderr` otherwise. -/
def run (exec : List Arg → RunRes) (args : List Arg) : Except RErr Unit :=
  let r := exec args
  if r.code = 0 then .ok () else .error (.ffmpeg r.code r.stderr)

/-- POSIX `path.join` for the two-component joins `renderMp4` uses. -/
def pjoin (a b : String) : String := a ++ "/" ++ b

/-- JavaScript `s.padStart(n, c)`: prepend `c` until the length is at
least `n`. -/
def padStart (s : String) (n : Nat) (c : Char) : String :=
  String.mk (List.replicate (n - s.length) c) ++ s

/-- Line 52: the segment file name `seg_${String(i).padStart(3,'0')}.mp4`. -/
def segName (i : Nat) : String :=
  "seg_" ++ padStart (toString i) 3 '0' ++ ".mp4"

/-- The fixed `-vf` filter string (lines 64 and 75): scale to fit a
1280x720 canvas preserving aspect ratio, pad to centre, yuv420p. -/
def vfArg : String :=
  "scale=1280:720:force_original_aspect_ratio=decrease,pad=1280:720:(ow-iw)/2:(oh-ih)/2,format=yuv420p"

/-- The ffmpeg argument vector built for one scene (lines 58-79): with
audio, the looped image and the audio are the two inputs, `-t` caps the
duration and `-shortest` stops at the shortest stream; without audio
the same video arguments are used with no audio input, no `-shortest`
and no audio codec. -/
def encodeArgs (imgPath : String) (audioFile : Option String) (dur : Rat)
    (seg : String) : List Arg :=
  match audioFile with
  | some audio =>
    [.s "-y", .s "-loop", .s "1", .s "-i", .s imgPath, .s "-i", .s audio,
     .s "-t", .n dur, .s "-vf", .s vfArg, .s "-shortest", .s "-r", .s "30",
     .s "-c:v", .s "libx264", .s "-c:a", .s "aac", .s seg]
  | none =>
    [.s "-y", .s "-loop", .s "1", .s "-i", .s imgPath, .s "-t", .n dur,
     .s "-vf", .s vfArg, .s "-r", .s "30", .s "-c:v", .s "libx264", .s seg]

/-- The concat invocation (line 90):
`['-y','-f','concat','-safe','0','-i',listFile,'-c','copy',out]`. -/
def concatArgs (listFile out : String) : List Arg :=
  [.s "-y", .s "-f", .s "concat", .s "-safe", .s "0", .s "-i", .s listFile,
   .s "-c", .s "copy", .s out]

/-- Line 87: the escaping `f.replace(/'/g, "'\\''")` applied to each
segment path before it is written into the concat list file (each
quote becomes quote, backslash, quote, quote). -/
def escapeQuotes (s : String) : String :=
  String.mk (s.toList.foldr
    (fun c acc =>
      if c = '\x27' then '\x27' :: '\\' :: '\x27' :: '\x27' :: acc
      else c :: acc) [])

/-- `images[i].path`; the index is in range whenever the count check
has passed, and the (unreachable) out-of-range value is the empty
string. -/
def imagePathAt (images : List UFile) (i : Nat) : String :=
  match images[i]? with
  | some f => f.path
  | none => ""

/-- The argument vector `renderMp4` builds for scene number `i`:
`images[i].path`, `audios[i] ? audios[i].path : null` (undefined past
the end of the array), the scene's duration, and the segment output
path. -/
def sceneArgs (tmp : String) (images audios : List UFile) (i : Nat)
    (sc : Scene) : List Arg :=
  encodeArgs (imagePathAt images i) ((audios[i]?).map UFile.path)
    sc.duration_sec (pjoin tmp (segName i))

/-- The spawn event recorded for one scene's encoder invocation. -/
def sceneSpawn (tmp : String) (images audios : List UFile)
    (p : Nat × Scene) : Event :=
  Event.spawn "ffmpeg" (sceneArgs tmp images audios p.1 p.2) tmp

/-- The scene loop (lines 49-83): for scene `i` take the i-th staged
image, the i-th staged audio when one exists (`audios[i]` is undefined
past the end of the array, hence `null`), build the argument vector,
run ffmpeg, and collect the segment path. -/
def encodeLoop (exec : List Arg → RunRes) (tmp : String)
    (images audios : List UFile) :
    List Scene → Nat → List Event × Except RErr (List String)
  | [], _ => ([], .ok [])
  | sc :: rest, i =>
    let args := sceneArgs tmp images audios i sc
    match run exec args with
    | .error e => ([Event.spawn "ffmpeg" args tmp], .error e)
    | .ok _ =>
      let next := encodeLoop exec tmp images audios rest (i + 1)
      (Event.spawn "ffmpeg" args tmp :: next.1,
       next.2.map (fun segs => pjoin tmp (segName i) :: segs))

/-- The three events of workspace allocation (lines 33-37). -/
def preEvents (tmp : String) : List Event :=
  [.mkdtemp tmp, .mkdir (pjoin tmp "imgs"), .mkdir (pjoin tmp "aud")]

/-- The content written to `list.txt` (lines 86-87) for the given
ordered segment paths. -/
def listContent (segmentFiles : List String) : String :=
  String.intercalate "\n"
    (segmentFiles.map (fun f => "file \x27" ++ escapeQuotes f ++ "\x27"))

/-- Shallow embedding of `renderMp4` (render.js lines 30-101).  `tmp`
names the fresh directory `fs.mkdtempSync` allocates, `exec` gives each
subprocess's outcome, and a `manifestJson` of `none` stands for a
manifest string that `JSON.parse` rejects.  The first component is the
trace of effects in program order; the returned string is the path of
the file whose bytes are handed back to the caller. -/
def renderMp4 (exec : List Arg → RunRes) (tmp : String) (files : Files)
    (manifestJson : Option Json) : List Event × Except RErr String :=
  match manifestJson with
  | none => ([], .error .jsonParse)
  | some j =>
    match Manifest.parse j with
    | .error e => ([], .error (.zod e))
    | .ok manifest =>
      let images := stagedImages files
      let audios := stagedAudios files
      if images.length ≠ manifest.scenes.length then
        (preEvents tmp,
         .error (.countMismatch images.length manifest.scenes.length))
      else
        let enc := encodeLoop exec tmp images audios manifest.scenes 0
        match enc.2 with
        | .error e => (preEvents tmp ++ enc.1, .error e)
        | .ok segmentFiles =>
          let listFile := pjoin tmp "list.txt"
          let out := pjoin tmp "output.mp4"
          match run exec (concatArgs listFile out) with
          | .error e =>
            (preEvents tmp ++ enc.1 ++
              [.writeFile listFile (listContent segmentFiles),
               .spawn "ffmpeg" (concatArgs listFile out) tmp],
             .error e)
          | .ok _ =>
            (preEvents tmp ++ enc.1 ++
              [.writeFile listFile (listContent segmentFiles),
               .spawn "ffmpeg" (concatArgs listFile out) tmp,
               .readFile out] ++
              ((images ++ audios).map (fun f => Event.unlink f.path)) ++
              [.rmTree tmp],
             .ok out)

/-- The value following `-t` in an argument vector, as ffmpeg's option
parser finds it. -/
def argT : List Arg → Option Rat
  | [] => none
  | .s v :: rest =>
    if v = "-t" then
      match rest with
      | .n d :: _ => some d
      | _ => none
    else argT rest
  | .n _ :: rest => argT rest

/-- The input files of an invocation: every string token following
`-i`. -/
def argInputs : List Arg → List String
  | [] => []
  | [.s _] => []
  | .s v :: .s p :: rest2 =>
    if v = "-i" then p :: argInputs rest2
    else argInputs (.s p :: rest2)
  | .s _ :: .n q :: rest2 => argInputs (.n q :: rest2)
  | .n _ :: rest => argInputs rest

/-- Whether `-shortest` was passed. -/
def hasShortest : List Arg → Bool
  | [] => false
  | .s v :: rest => if v = "-shortest" then true else hasShortest rest
  | .n _ :: rest => hasShortest rest

/-- Modelled from ffmpeg's documented behavior for the invocations
`renderMp4` builds: `-loop 1` makes the image input an unbounded
stream, `-t d` caps the output at `d` seconds, and `-shortest`
additionally stops at the shortest finite input stream.  `audioLen`
gives the duration in seconds of each audio file; the looped image
contributes no finite bound, so with `-shortest` the effective bound is
the length of the second (audio) input. -/
def outputDuration (audioLen : String → Rat) (args : List Arg) : Option Rat :=
  match argT args with
  | none => none
  | some t =>
    if hasShortest args then
      match argInputs args with
      | [_, audio] => some (min t (audioLen audio))
      | _ => some t
    else some t

theorem encodeLoop_success (exec : List Arg → RunRes) (tmp : String)
    (images audios : List UFile) (hexec : ∀ a, (exec a).code = 0) :
    ∀ (scenes : List Scene) (i : Nat),
    encodeLoop exec tmp images audios scenes i =
      ((scenes.enumFrom i).map (sceneSpawn tmp images audios),
       .ok ((scenes.enumFrom i).map (fun p => pjoin tmp (segName p.1)))) := by
  intro scenes
  induction scenes with
  | nil => intro i; rfl
  | cons sc rest ih =>
    intro i
    simp only [encodeLoop, run, hexec, List.enumFrom, List.map_cons]
    rw [ih (i + 1)]
    simp [sceneSpawn, Except.map]

theorem encodeLoop_fail (exec : List Arg → RunRes) (tmp : String)
    (images audios : List UFile) :
    ∀ (scenes : List Scene) (i jx : Nat) (sc : Scene),
    scenes[jx]? = some sc →
    (∀ k s2, k < jx → scenes[k]? = some s2 →
      (exec (sceneArgs tmp images audios (i + k) s2)).code = 0) →
    (exec (sceneArgs tmp images audios (i + jx) sc)).code ≠ 0 →
    encodeLoop exec tmp images audios scenes i =
      (((scenes.take (jx + 1)).enumFrom i).map (sceneSpawn tmp images audios),
       .error (.ffmpeg (exec (sceneArgs tmp images audios (i + jx) sc)).code
                       (exec (sceneArgs tmp images audios (i + jx) sc)).stderr)) := by
  intro scenes
  induction scenes with
  | nil =>
    intro i jx sc hj
    simp at hj
  | cons sc0 rest ih =>
    intro i jx sc hj hok hfail
    cases jx with
    | zero =>
      have hsc : sc0 = sc := by simpa using hj
      subst hsc
      simp only [Nat.add_zero] at hfail ⊢
      simp only [encodeLoop, run]
      rw [if_neg hfail]
      simp [List.take, List.enumFrom, sceneSpawn]
    | succ j2 =>
      have h0 : (exec (sceneArgs tmp images audios i sc0)).code = 0 := by
        have h := hok 0 sc0 (Nat.succ_pos j2) (by simp)
        simpa using h
      have hadd : ∀ k : Nat, i + 1 + k = i + (k + 1) := by
        intro k
        omega
      have hj2 : rest[j2]? = some sc := by simpa using hj
      have hok2 : ∀ k s2, k < j2 → rest[k]? = some s2 →
          (exec (sceneArgs tmp images audios (i + 1 + k) s2)).code = 0 := by
        intro k s2 hk hks
        rw [hadd k]
        exact hok (k + 1) s2 (by omega) (by simpa using hks)
      have hfail2 : (exec (sceneArgs tmp images audios (i + 1 + j2) sc)).code ≠ 0 := by
        rw [hadd j2]
        exact hfail
      simp only [encodeLoop, run]
      rw [if_pos h0]
      simp only []
      rw [ih (i + 1) j2 sc hj2 hok2 hfail2]
      simp [List.take, List.enumFrom, sceneSpawn, hadd j2, Except.map]

theorem renderMp4_success (exec : List Arg → RunRes) (tmp : String)
    (files : Files) (j : Json) (M : Manifest)
    (hparse : Manifest.parse j = .ok M)
    (hcount : (stagedImages files).length = M.scenes.length)
    (hexec : ∀ a, (exec a).code = 0) :
    renderMp4 exec tmp files (some j) =
      (preEvents tmp
        ++ (M.scenes.enumFrom 0).map
             (sceneSpawn tmp (stagedImages files) (stagedAudios files))
        ++ [.writeFile (pjoin tmp "list.txt")
              (listContent ((M.scenes.enumFrom 0).map
                (fun p => pjoin tmp (segName p.1)))),
            .spawn "ffmpeg"
              (concatArgs (pjoin tmp "list.txt") (pjoin tmp "output.mp4")) tmp,
            .readFile (pjoin tmp "output.mp4")]
        ++ (stagedImages files ++ stagedAudios files).map
             (fun f => Event.unlink f.path)
        ++ [.rmTree tmp],
       .ok (pjoin tmp "output.mp4")) := by
  simp only [renderMp4, hparse]
  rw [if_neg (fun h => h hcount)]
  rw [encodeLoop_success exec tmp _ _ hexec]
  simp [run, hexec]

set_option maxRecDepth 8000 in
theorem outputDuration_audio (audioLen : String → Rat)
    (imgPath audio : String) (dur : Rat) (seg : String)
    (hi : imgPath ≠ "-t") (ha : audio ≠ "-t") :
    outputDuration audioLen (encodeArgs imgPath (some audio) dur seg) =
      some (min dur (audioLen audio)) := by
  simp [outputDuration, encodeArgs, argT, argInputs, hasShortest, vfArg, hi, ha]

set_option maxRecDepth 8000 in
theorem outputDuration_silent (audioLen : String → Rat)
    (imgPath : String) (dur : Rat) (seg : String)
    (hi : imgPath ≠ "-t") (hi2 : imgPath ≠ "-shortest")
    (hs : seg ≠ "-shortest") :
    outputDuration audioLen (encodeArgs imgPath none dur seg) = some dur := by
  simp [outputDuration, encodeArgs, argT, hasShortest, vfArg, hi, hi2, hs]

theorem length_mk_replicate (n : Nat) (c : Char) :
    (String.mk (List.replicate n c)).length = n := by
  simp [String.length]

theorem segName_length (i : Nat) : 11 ≤ (segName i).length := by
  unfold segName padStart
  rw [String.length_append, String.length_append, String.length_append]
  have h1 : ("seg_" : String).length = 4 := rfl
  have h2 : (".mp4" : String).length = 4 := rfl
  rw [h1, h2, length_mk_replicate]
  omega

theorem pjoin_length (a b : String) :
    (pjoin a b).length = a.length + 1 + b.length := by
  simp [pjoin, String.length_append]
  rfl

theorem pjoin_segName_ne (tmp : String) (i : Nat) (t : String)
    (ht : t.length ≤ 9) : pjoin tmp (segName i) ≠ t := by
  intro h
  have hl := congrArg String.length h
  rw [pjoin_length] at hl
  have hs := segName_length i
  omega

theorem encodeLoop_events_spawn (exec : List Arg → RunRes) (tmp : String)
    (images audios : List UFile) :
    ∀ (scenes : List Scene) (i : Nat) (e : Event),
    e ∈ (encodeLoop exec tmp images audios scenes i).1 →
    ∃ args, e = Event.spawn "ffmpeg" args tmp := by
  intro scenes
  induction scenes with
  | nil =>
    intro i e he
    simp [encodeLoop] at he
  | cons sc rest ih =>
    intro i e he
    simp only [encodeLoop] at he
    cases hr : run exec (sceneArgs tmp images audios i sc) with
    | error err =>
      rw [hr] at he
      simp at he
      exact ⟨_, he⟩
    | ok u =>
      rw [hr] at he
      simp at he
      cases he with
      | inl h => exact ⟨_, h⟩
      | inr h => exact ih (i + 1) e h

theorem encodeLoop_ok (exec : List Arg → RunRes) (tmp : String)
    (images audios : List UFile) :
    ∀ (scenes : List Scene) (i : Nat),
    (∀ k sc, scenes[k]? = some sc →
      (exec (sceneArgs tmp images audios (i + k) sc)).code = 0) →
    encodeLoop exec tmp images audios scenes i =
      ((scenes.enumFrom i).map (sceneSpawn tmp images audios),
       .ok ((scenes.enumFrom i).map (fun p => pjoin tmp (segName p.1)))) := by
  intro scenes
  induction scenes with
  | nil => intro i _; rfl
  | cons sc rest ih =>
    intro i hok
    have h0 : (exec (sceneArgs tmp images audios i sc)).code = 0 := by
      have h := hok 0 sc (by simp)
      simpa using h
    have hok2 : ∀ k s2, rest[k]? = some s2 →
        (exec (sceneArgs tmp images audios (i + 1 + k) s2)).code = 0 := by
      intro k s2 hks
      have h := hok (k + 1) s2 (by simpa using hks)
      have heq : i + (k + 1) = i + 1 + k := by omega
      rw [heq] at h
      exact h
    simp only [encodeLoop, run]
    rw [if_pos h0]
    simp only []
    rw [ih (i + 1) hok2]
    simp [sceneSpawn, Except.map, List.enumFrom]

theorem mem_enumFrom_zero {l : List α} {i : Nat} {x : α}
    (h : l[i]? = some x) : (i, x) ∈ l.enumFrom 0 := by
  have h2 := List.mk_add_mem_enumFrom_iff_getElem? (n := 0) (i := i) (x := x) (l := l)
  simpa using h2.mpr h

theorem enumFrom_segPaths (tmp : String) (scenes : List Scene) :
    (scenes.enumFrom 0).map (fun p => pjoin tmp (segName p.1)) =
      (List.range scenes.length).map (fun i => pjoin tmp (segName i)) := by
  have h : (scenes.enumFrom 0).map (fun p => pjoin tmp (segName p.1)) =
      ((scenes.enumFrom 0).map Prod.fst).map (fun i => pjoin tmp (segName i)) := by
    rw [List.map_map]
    rfl
  rw [h, List.enumFrom_map_fst, ← List.range_eq_range']

theorem encodeLoop_congr (exec : List Arg → RunRes) (tmp : String)
    (images audios : List UFile) :
    ∀ (s1 s2 : List Scene) (i : Nat),
    s1.map Scene.duration_sec = s2.map Scene.duration_sec →
    encodeLoop exec tmp images audios s1 i =
      encodeLoop exec tmp images audios s2 i := by
  intro s1
  induction s1 with
  | nil =>
    intro s2 i h
    cases s2 with
    | nil => rfl
    | cons b m => simp at h
  | cons a l ih =>
    intro s2 i h
    cases s2 with
    | nil => simp at h
    | cons b m =>
      simp only [List.map_cons, List.cons.injEq] at h
      have hargs : sceneArgs tmp images audios i a =
          sceneArgs tmp images audios i b := by
        unfold sceneArgs
        rw [h.1]
      simp only [encodeLoop]
      rw [hargs, ih m (i + 1) h.2]

/-- A subprocess oracle under which every invocation succeeds. -/
def okExec : List Arg → RunRes := fun _ => ⟨0, ""⟩

/-- A subprocess oracle failing exactly the invocations that mention
the given output file. -/
def execFailSeg (seg : String) : List Arg → RunRes :=
  fun a => if Arg.s seg ∈ a then ⟨1, "boom"⟩ else ⟨0, ""⟩

/-- The one-scene manifest `{"scenes":[{"duration_sec":5}]}`. -/
def mj1 : Json := .obj [("scenes", .arr [.obj [("duration_sec", .num 5)]])]

/-- A two-scene manifest with durations 5 and 6. -/
def mj2 : Json := .obj [("scenes", .arr
  [.obj [("duration_sec", .num 5)], .obj [("duration_sec", .num 6)]])]

/-- `mj1` with `hasAudio: true` on its scene. -/
def mj1audio : Json := .obj [("scenes", .arr
  [.obj [("duration_sec", .num 5), ("hasAudio", .bool true)]])]

/-- One uploaded image. -/
def oneImage : Files := ⟨some [⟨"a", "/up/a"⟩], none⟩

/-- Two uploaded images. -/
def twoImages : Files := ⟨some [⟨"a", "/up/a"⟩, ⟨"b", "/up/b"⟩], none⟩

/-- Two uploaded images whose locale order and byte-wise order
disagree. -/
def mixedCase : Files := ⟨some [⟨"a", "pa"⟩, ⟨"B", "pb"⟩], none⟩

theorem preEvents_no_removal (tmp : String) :
    ∀ e ∈ preEvents tmp,
    (∀ d, e ≠ Event.rmTree d) ∧ (∀ p, e ≠ Event.unlink p) := by
  intro e he
  simp [preEvents] at he
  rcases he with rfl | rfl | rfl
  · exact And.intro (fun d hd => nomatch hd) (fun p hp => nomatch hp)
  · exact And.intro (fun d hd => nomatch hd) (fun p hp => nomatch hp)
  · exact And.intro (fun d hd => nomatch hd) (fun p hp => nomatch hp)

/-- C1 (amended): cleanup is confined to the success path: a successful
render unlinks every staged upload and removes the temporary directory
tree, while every failing exit path performs no removal at all, so the
temporary directory, any already-encoded segments, and the uploaded
files are left behind on failure. -/
theorem claim_C1_amended (exec : List Arg → RunRes) (tmp : String)
    (files : Files) (mjson : Option Json) :
    ((renderMp4 exec tmp files mjson).2.isOk = true →
      Event.rmTree tmp ∈ (renderMp4 exec tmp files mjson).1 ∧
      ∀ f ∈ stagedImages files ++ stagedAudios files,
        Event.unlink f.path ∈ (renderMp4 exec tmp files mjson).1) ∧
    ((renderMp4 exec tmp files mjson).2.isOk = false →
      ∀ e ∈ (renderMp4 exec tmp files mjson).1,
        (∀ d, e ≠ Event.rmTree d) ∧ (∀ p, e ≠ Event.unlink p)) := by
  cases mjson with
  | none =>
    constructor
    · intro h
      simp [renderMp4, Except.isOk, Except.toBool] at h
    · intro _ e he
      simp [renderMp4] at he
  | some jv =>
    cases hp : Manifest.parse jv with
    | error msg =>
      constructor
      · intro h
        simp [renderMp4, hp, Except.isOk, Except.toBool] at h
      · intro _ e he
        simp [renderMp4, hp] at he
    | ok M =>
      by_cases hlen : (stagedImages files).length ≠ M.scenes.length
      · have htr1 : (renderMp4 exec tmp files (some jv)).1 = preEvents tmp := by
          simp [renderMp4, hp, hlen]
        have htr2 : (renderMp4 exec tmp files (some jv)).2 =
            .error (.countMismatch (stagedImages files).length M.scenes.length) := by
          simp [renderMp4, hp, hlen]
        constructor
        · intro h
          rw [htr2] at h
          simp [Except.isOk, Except.toBool] at h
        · intro _ e he
          rw [htr1] at he
          exact preEvents_no_removal tmp e he
      · cases he2 : (encodeLoop exec tmp (stagedImages files) (stagedAudios files)
            M.scenes 0).2 with
        | error err =>
          have htr1 : (renderMp4 exec tmp files (some jv)).1 =
              preEvents tmp ++ (encodeLoop exec tmp (stagedImages files)
                (stagedAudios files) M.scenes 0).1 := by
            simp [renderMp4, hp, hlen, he2]
          have htr2 : (renderMp4 exec tmp files (some jv)).2 = .error err := by
            simp [renderMp4, hp, hlen, he2]
          constructor
          · intro h
            rw [htr2] at h
            simp [Except.isOk, Except.toBool] at h
          · intro _ e he
            rw [htr1] at he
            rcases List.mem_append.mp he with h | h
            · exact preEvents_no_removal tmp e h
            · obtain ⟨args, rfl⟩ :=
                encodeLoop_events_spawn exec tmp _ _ M.scenes 0 e h
              exact And.intro (fun d hd => nomatch hd) (fun p hp2 => nomatch hp2)
        | ok segs =>
          cases hr : run exec (concatArgs (pjoin tmp "list.txt")
              (pjoin tmp "output.mp4")) with
          | error err =>
            have htr1 : (renderMp4 exec tmp files (some jv)).1 =
                preEvents tmp ++ (encodeLoop exec tmp (stagedImages files)
                  (stagedAudios files) M.scenes 0).1 ++
                [.writeFile (pjoin tmp "list.txt") (listContent segs),
                 .spawn "ffmpeg" (concatArgs (pjoin tmp "list.txt")
                   (pjoin tmp "output.mp4")) tmp] := by
              simp [renderMp4, hp, hlen, he2, hr]
            have htr2 : (renderMp4 exec tmp files (some jv)).2 = .error err := by
              simp [renderMp4, hp, hlen, he2, hr]
            constructor
            · intro h
              rw [htr2] at h
              simp [Except.isOk, Except.toBool] at h
            · intro _ e he
              rw [htr1] at he
              rcases List.mem_append.mp he with h | h
              · rcases List.mem_append.mp h with h2 | h2
                · exact preEvents_no_removal tmp e h2
                · obtain ⟨args, rfl⟩ :=
                    encodeLoop_events_spawn exec tmp _ _ M.scenes 0 e h2
                  exact And.intro (fun d hd => nomatch hd) (fun p hp2 => nomatch hp2)
              · simp at h
                rcases h with rfl | rfl
                · exact And.intro (fun d hd => nomatch hd) (fun p hp2 => nomatch hp2)
                · exact And.intro (fun d hd => nomatch hd) (fun p hp2 => nomatch hp2)
          | ok u =>
            have htr1 : (renderMp4 exec tmp files (some jv)).1 =
                preEvents tmp ++ (encodeLoop exec tmp (stagedImages files)
                  (stagedAudios files) M.scenes 0).1 ++
                [.writeFile (pjoin tmp "list.txt") (listContent segs),
                 .spawn "ffmpeg" (concatArgs (pjoin tmp "list.txt")
                   (pjoin tmp "output.mp4")) tmp,
                 .readFile (pjoin tmp "output.mp4")] ++
                ((stagedImages files ++ stagedAudios files).map
                  (fun f => Event.unlink f.path)) ++
                [.rmTree tmp] := by
              simp [renderMp4, hp, hlen, he2, hr]
            have htr2 : (renderMp4 exec tmp files (some jv)).2 =
                .ok (pjoin tmp "output.mp4") := by
              simp [renderMp4, hp, hlen, he2, hr]
            constructor
            · intro _
              constructor
              · rw [htr1]
                exact List.mem_append.mpr (Or.inr (by simp))
              · intro f hf
                rw [htr1]
                exact List.mem_append.mpr (Or.inl (List.mem_append.mpr
                  (Or.inr (List.mem_map_of_mem _ hf))))
            · intro h
              rw [htr2] at h
              simp [Except.isOk, Except.toBool] at h

/-- C1 (counterexample): the claim that every exit path removes the
temporary tree and the uploads fails at a concrete input: a render
rejected by the image-count check has already created the temporary
directory, and its trace contains no removal event, so the directory
and the uploaded file remain. -/
theorem claim_C1_counterexample :
    Event.mkdtemp "/tmp/cs" ∈ (renderMp4 okExec "/tmp/cs" oneImage (some mj2)).1 ∧
    Event.rmTree "/tmp/cs" ∉ (renderMp4 okExec "/tmp/cs" oneImage (some mj2)).1 ∧
    Event.unlink "/up/a" ∉ (renderMp4 okExec "/tmp/cs" oneImage (some mj2)).1 ∧
    (renderMp4 okExec "/tmp/cs" oneImage (some mj2)).2 =
      .error (.countMismatch 1 2) :=
  ⟨by decide, by decide, by decide, rfl⟩

theorem claim_C1_amended_witness :
    Event.rmTree "/tmp/cs" ∈ (renderMp4 okExec "/tmp/cs" oneImage (some mj1)).1 :=
  ((claim_C1_amended okExec "/tmp/cs" oneImage (some mj1)).1 (by decide)).1

theorem mem_stagedImages {files : Files} {f : UFile}
    (h : f ∈ stagedImages files) : f ∈ files.images.getD [] := by
  unfold stagedImages at h
  exact (List.mem_insertionSort byName).mp h

theorem mem_stagedAudios {files : Files} {f : UFile}
    (h : f ∈ stagedAudios files) : f ∈ files.audios.getD [] := by
  unfold stagedAudios at h
  exact (List.mem_insertionSort byName).mp h

theorem imagePathAt_ne (images : List UFile) (i : Nat) (t : String)
    (ht : t ≠ "") (hp : ∀ f ∈ images, f.path ≠ t) :
    imagePathAt images i ≠ t := by
  unfold imagePathAt
  cases hg : images[i]? with
  | some g => exact hp g (List.getElem?_mem hg)
  | none => exact fun h => ht h.symm

/-- C2: for every scene of a valid render whose subprocesses succeed,
the scene's encoder invocation appears in the trace, and the ffmpeg
semantics of that invocation give an output duration of
min(duration_sec, audio length) when an i-th staged audio exists and
exactly duration_sec when it does not (the model is exact, hence well
within the one-frame-at-30fps tolerance). -/
theorem claim_C2 (exec : List Arg → RunRes) (tmp : String) (files : Files)
    (j : Json) (M : Manifest) (audioLen : String → Rat)
    (hparse : Manifest.parse j = .ok M)
    (hcount : (stagedImages files).length = M.scenes.length)
    (hexec : ∀ a, (exec a).code = 0)
    (hpaths : ∀ f ∈ files.images.getD [] ++ files.audios.getD [],
      f.path ≠ "-t" ∧ f.path ≠ "-shortest") :
    ∀ i sc, M.scenes[i]? = some sc →
      Event.spawn "ffmpeg"
          (sceneArgs tmp (stagedImages files) (stagedAudios files) i sc) tmp
        ∈ (renderMp4 exec tmp files (some j)).1 ∧
      outputDuration audioLen
          (sceneArgs tmp (stagedImages files) (stagedAudios files) i sc) =
        some (match (stagedAudios files)[i]? with
          | some f => min sc.duration_sec (audioLen f.path)
          | none => sc.duration_sec) := by
  intro i sc hi
  have himg : imagePathAt (stagedImages files) i ≠ "-t" := by
    refine imagePathAt_ne _ _ _ (by decide) ?_
    intro f hf
    exact (hpaths f (List.mem_append.mpr (Or.inl (mem_stagedImages hf)))).1
  constructor
  · rw [renderMp4_success exec tmp files j M hparse hcount hexec]
    have hm : (i, sc) ∈ M.scenes.enumFrom 0 := mem_enumFrom_zero hi
    refine List.mem_append.mpr (Or.inl (List.mem_append.mpr (Or.inl
      (List.mem_append.mpr (Or.inl (List.mem_append.mpr (Or.inr ?_)))))))
    exact List.mem_map_of_mem _ hm
  · unfold sceneArgs
    cases ha : (stagedAudios files)[i]? with
    | some f =>
      have hft : f.path ≠ "-t" := by
        have hfa : f ∈ files.audios.getD [] :=
          mem_stagedAudios (List.getElem?_mem ha)
        exact (hpaths f (List.mem_append.mpr (Or.inr hfa))).1
      simp only [Option.map]
      exact outputDuration_audio audioLen _ _ _ _ himg hft
    | none =>
      have himg2 : imagePathAt (stagedImages files) i ≠ "-shortest" := by
        refine imagePathAt_ne _ _ _ (by decide) ?_
        intro f hf
        exact (hpaths f (List.mem_append.mpr (Or.inl (mem_stagedImages hf)))).2
      have hseg : pjoin tmp (segName i) ≠ "-shortest" :=
        pjoin_segName_ne tmp i "-shortest" (by decide)
      simp only [Option.map]
      exact outputDuration_silent audioLen _ _ _ himg himg2 hseg

theorem claim_C2_witness :
    Event.spawn "ffmpeg"
        (sceneArgs "/tmp/cs" (stagedImages oneImage) (stagedAudios oneImage)
          0 ⟨5, false⟩) "/tmp/cs"
      ∈ (renderMp4 okExec "/tmp/cs" oneImage (some mj1)).1 ∧
    outputDuration (fun _ => 7)
        (sceneArgs "/tmp/cs" (stagedImages oneImage) (stagedAudios oneImage)
          0 ⟨5, false⟩) = some 5 :=
  claim_C2 okExec "/tmp/cs" oneImage mj1 ⟨[⟨5, false⟩]⟩ (fun _ => 7) rfl
    (by decide) (fun _ => rfl) (by decide) 0 ⟨5, false⟩ rfl

/-- C3: the manifest's hasAudio flags are never read after validation:
two parsed manifests with the same durations (hasAudio flags arbitrary)
yield identical traces and identical results, so audio presence is
decided solely by which staged audio files exist. -/
theorem claim_C3 (exec : List Arg → RunRes) (tmp : String) (files : Files)
    (j1 j2 : Json) (M1 M2 : Manifest)
    (h1 : Manifest.parse j1 = .ok M1) (h2 : Manifest.parse j2 = .ok M2)
    (hdur : M1.scenes.map Scene.duration_sec = M2.scenes.map Scene.duration_sec) :
    renderMp4 exec tmp files (some j1) = renderMp4 exec tmp files (some j2) := by
  have hlen : M1.scenes.length = M2.scenes.length := by
    have hc := congrArg List.length hdur
    simpa using hc
  have hloop := encodeLoop_congr exec tmp (stagedImages files)
    (stagedAudios files) M1.scenes M2.scenes 0 hdur
  simp only [renderMp4, h1, h2]
  rw [hlen, hloop]

theorem claim_C3_witness :
    renderMp4 okExec "/tmp/cs" oneImage (some mj1) =
      renderMp4 okExec "/tmp/cs" oneImage (some mj1audio) :=
  claim_C3 okExec "/tmp/cs" oneImage mj1 mj1audio ⟨[⟨5, false⟩]⟩
    ⟨[⟨5, true⟩]⟩ rfl rfl rfl

/-- C6: with a valid manifest of N scenes and an image count different
from N, renderMp4 fails with the count-mismatch validation error and
no subprocess is ever spawned: the trace holds only the workspace
allocation events. -/
theorem claim_C6 (exec : List Arg → RunRes) (tmp : String) (files : Files)
    (j : Json) (M : Manifest)
    (hparse : Manifest.parse j = .ok M)
    (hne : (stagedImages files).length ≠ M.scenes.length) :
    renderMp4 exec tmp files (some j) =
      (preEvents tmp,
       .error (.countMismatch (stagedImages files).length M.scenes.length)) ∧
    ∀ c a cw, Event.spawn c a cw ∉ (renderMp4 exec tmp files (some j)).1 := by
  have heq : renderMp4 exec tmp files (some j) =
      (preEvents tmp,
       .error (.countMismatch (stagedImages files).length M.scenes.length)) := by
    simp [renderMp4, hparse, hne]
  refine ⟨heq, ?_⟩
  intro c a cw hmem
  rw [heq] at hmem
  simp [preEvents] at hmem

theorem claim_C6_witness :
    renderMp4 okExec "/tmp/cs" oneImage (some mj2) =
      (preEvents "/tmp/cs", .error (.countMismatch 1 2)) :=
  (claim_C6 okExec "/tmp/cs" oneImage mj2 ⟨[⟨5, false⟩, ⟨6, false⟩]⟩ rfl
    (by decide)).1

/-- C10: when the manifest string fails JSON parsing or fails manifest
validation, renderMp4 throws with an empty trace: in particular the
temporary directory is never created and the filesystem is untouched on
that path. -/
theorem claim_C10 (exec : List Arg → RunRes) (tmp : String) (files : Files) :
    renderMp4 exec tmp files none = ([], .error .jsonParse) ∧
    ∀ j e, Manifest.parse j = .error e →
      renderMp4 exec tmp files (some j) = ([], .error (.zod e)) := by
  constructor
  · rfl
  · intro jv e he
    simp [renderMp4, he]

theorem claim_C10_witness :
    renderMp4 okExec "/tmp/cs" oneImage (some (Json.obj [])) =
      ([], .error (.zod "scenes: Required")) :=
  (claim_C10 okExec "/tmp/cs" oneImage).2 (Json.obj []) "scenes: Required" rfl

/-- Two images arriving in the reverse order of `mixedCase`. -/
def mixedCaseRev : Files := ⟨some [⟨"B", "pb"⟩, ⟨"a", "pa"⟩], none⟩

/-- C4 (counterexample): staging does not sort by byte-wise
lexicographic order: uploads named "a" and "B" stage as [a, B] under
the code's localeCompare sort, while byte-wise lexicographic order
puts "B" (0x42) before "a" (0x61). -/
theorem claim_C4_counterexample :
    stagedImages mixedCase ≠
      List.insertionSort byNameBytes (mixedCase.images.getD []) ∧
    stagedImages mixedCase = [⟨"a", "pa"⟩, ⟨"B", "pb"⟩] ∧
    List.insertionSort byNameBytes (mixedCase.images.getD []) =
      [⟨"B", "pb"⟩, ⟨"a", "pa"⟩] :=
  ⟨by decide, by decide, by decide⟩

/-- C4 (amended): staging partitions uploads by declared role and sorts
each partition by the locale-aware comparator `localeCompare` — not by
byte-wise lexicographic order — and when the original names are
pairwise distinct the two ordered sequences are fully determined by
the names, independent of the arrival order of the uploads. -/
theorem claim_C4_amended (f1 f2 : Files)
    (hpi : (f1.images.getD []).Perm (f2.images.getD []))
    (hpa : (f1.audios.getD []).Perm (f2.audios.getD []))
    (hdi : (f1.images.getD []).Pairwise
      (fun a b => a.originalname ≠ b.originalname))
    (hda : (f1.audios.getD []).Pairwise
      (fun a b => a.originalname ≠ b.originalname)) :
    (stagedImages f1).Sorted byName ∧ (stagedAudios f1).Sorted byName ∧
    (stagedImages f1).Perm (f1.images.getD []) ∧
    (stagedAudios f1).Perm (f1.audios.getD []) ∧
    stagedImages f1 = stagedImages f2 ∧
    stagedAudios f1 = stagedAudios f2 := by
  have hsymm : Symmetric (fun a b : UFile => a.originalname ≠ b.originalname) :=
    fun x y h he => h he.symm
  unfold stagedImages stagedAudios
  refine ⟨List.sorted_insertionSort byName _, List.sorted_insertionSort byName _,
    List.perm_insertionSort byName _, List.perm_insertionSort byName _, ?_, ?_⟩
  · exact sorted_perm_distinct_eq
      (((List.perm_insertionSort byName _).pairwise_iff
        (fun hxy => hsymm hxy)).mpr hdi)
      (((List.perm_insertionSort byName _).trans hpi).trans
        (List.perm_insertionSort byName _).symm)
      (List.sorted_insertionSort byName _)
      (List.sorted_insertionSort byName _)
  · exact sorted_perm_distinct_eq
      (((List.perm_insertionSort byName _).pairwise_iff
        (fun hxy => hsymm hxy)).mpr hda)
      (((List.perm_insertionSort byName _).trans hpa).trans
        (List.perm_insertionSort byName _).symm)
      (List.sorted_insertionSort byName _)
      (List.sorted_insertionSort byName _)

theorem claim_C4_amended_witness :
    stagedImages mixedCase = stagedImages mixedCaseRev :=
  (claim_C4_amended mixedCase mixedCaseRev (by decide) (by decide)
    (by decide) (by decide)).2.2.2.2.1

/-- C5: manifest validation accepts exactly the spec-described shape —
an object whose `scenes` field is an array of length at least 1 of
objects carrying a numeric `duration_sec` in [1, 60] and an optional
boolean `hasAudio` — and a scene object without a `hasAudio` key
parses with `hasAudio = false`. -/
theorem claim_C5 :
    (∀ j : Json, (Manifest.parse j).isOk = specAccepts j) ∧
    (∀ fields sc, lookupField "hasAudio" fields = none →
      parseScene (.obj fields) = .ok sc → sc.hasAudio = false) := by
  constructor
  · intro j
    cases j with
    | obj fields =>
      simp only [Manifest.parse, specAccepts]
      cases lookupField "scenes" fields with
      | none => simp [Except.isOk, Except.toBool]
      | some v =>
        cases v with
        | arr items =>
          have hall := parseScenes_isOk items
          cases hp : parseScenes items with
          | error e =>
            rw [hp] at hall
            simp only [hp]
            rw [← hall]
            simp [Except.isOk, Except.toBool]
          | ok scenes =>
            rw [hp] at hall
            have hlen := parseScenes_length hp
            simp only [hp]
            rw [← hall, ← hlen]
            by_cases h1 : 1 ≤ scenes.length
            · rw [if_pos h1]
              simp [Except.isOk, Except.toBool, h1]
            · rw [if_neg h1]
              simp [Except.isOk, Except.toBool, h1]
        | null => simp [Except.isOk, Except.toBool]
        | bool b => simp [Except.isOk, Except.toBool]
        | num q => simp [Except.isOk, Except.toBool]
        | str s => simp [Except.isOk, Except.toBool]
        | obj fields2 => simp [Except.isOk, Except.toBool]
    | null => simp [Manifest.parse, specAccepts, Except.isOk, Except.toBool]
    | bool b => simp [Manifest.parse, specAccepts, Except.isOk, Except.toBool]
    | num q => simp [Manifest.parse, specAccepts, Except.isOk, Except.toBool]
    | str s => simp [Manifest.parse, specAccepts, Except.isOk, Except.toBool]
    | arr items => simp [Manifest.parse, specAccepts, Except.isOk, Except.toBool]
  · intro fields sc hnone hok
    simp only [parseScene, hnone] at hok
    cases hd : lookupField "duration_sec" fields with
    | none =>
      rw [hd] at hok
      cases hok
    | some v =>
      simp only [hd] at hok
      cases v with
      | num d =>
        replace hok : (if 1 ≤ d then
            if d ≤ 60 then (Except.ok ⟨d, false⟩ : Except String Scene)
            else .error "duration_sec: Number must be less than or equal to 60"
          else .error "duration_sec: Number must be greater than or equal to 1") =
            .ok sc := hok
        by_cases h1 : 1 ≤ d
        · rw [if_pos h1] at hok
          by_cases h2 : d ≤ 60
          · rw [if_pos h2] at hok
            cases hok
            rfl
          · rw [if_neg h2] at hok
            cases hok
        · rw [if_neg h1] at hok
          cases hok
      | null => cases hok
      | bool b => cases hok
      | str s => cases hok
      | arr items => cases hok
      | obj fields2 => cases hok

theorem claim_C5_witness :
    (Manifest.parse mj1).isOk = specAccepts mj1 ∧
    (⟨5, false⟩ : Scene).hasAudio = false :=
  ⟨claim_C5.1 mj1,
   claim_C5.2 [("duration_sec", Json.num 5)] ⟨5, false⟩ rfl rfl⟩

/-- C7 (counterexample): the error produced by an encoder failure does
not carry the scene index: two renders failing at different scenes
(scene 0 in the first, scene 1 in the second, as the trace lengths
show) return the very same error value, so the error cannot identify
the failing scene. -/
theorem claim_C7_counterexample :
    (renderMp4 (execFailSeg "/tmp/cs/seg_000.mp4") "/tmp/cs" twoImages
        (some mj2)).2 =
      (renderMp4 (execFailSeg "/tmp/cs/seg_001.mp4") "/tmp/cs" twoImages
        (some mj2)).2 ∧
    (renderMp4 (execFailSeg "/tmp/cs/seg_000.mp4") "/tmp/cs" twoImages
        (some mj2)).2 = .error (.ffmpeg 1 "boom") ∧
    (renderMp4 (execFailSeg "/tmp/cs/seg_000.mp4") "/tmp/cs" twoImages
        (some mj2)).1.length = 4 ∧
    (renderMp4 (execFailSeg "/tmp/cs/seg_001.mp4") "/tmp/cs" twoImages
        (some mj2)).1.length = 5 :=
  ⟨rfl, rfl, by decide, by decide⟩

/-- C7 (amended): a non-zero exit of any scene's encoder or of the
concat invocation is fatal: the render returns the first failure's
error, which carries the exit code and the stderr excerpt (but no
scene index); the trace stops right after the failing invocation, so
no later scene is encoded, no retry occurs, and no video is
returned. -/
theorem claim_C7_amended (exec : List Arg → RunRes) (tmp : String)
    (files : Files) (j : Json) (M : Manifest)
    (hparse : Manifest.parse j = .ok M)
    (hcount : (stagedImages files).length = M.scenes.length) :
    (∀ jx sc, M.scenes[jx]? = some sc →
      (∀ k s2, k < jx → M.scenes[k]? = some s2 →
        (exec (sceneArgs tmp (stagedImages files) (stagedAudios files)
          k s2)).code = 0) →
      (exec (sceneArgs tmp (stagedImages files) (stagedAudios files)
        jx sc)).code ≠ 0 →
      renderMp4 exec tmp files (some j) =
        (preEvents tmp ++ ((M.scenes.take (jx + 1)).enumFrom 0).map
            (sceneSpawn tmp (stagedImages files) (stagedAudios files)),
         .error (.ffmpeg
           (exec (sceneArgs tmp (stagedImages files) (stagedAudios files)
             jx sc)).code
           (exec (sceneArgs tmp (stagedImages files) (stagedAudios files)
             jx sc)).stderr))) ∧
    ((∀ k s2, M.scenes[k]? = some s2 →
        (exec (sceneArgs tmp (stagedImages files) (stagedAudios files)
          k s2)).code = 0) →
      (exec (concatArgs (pjoin tmp "list.txt") (pjoin tmp "output.mp4"))).code ≠ 0 →
      renderMp4 exec tmp files (some j) =
        (preEvents tmp ++ (M.scenes.enumFrom 0).map
            (sceneSpawn tmp (stagedImages files) (stagedAudios files)) ++
          [.writeFile (pjoin tmp "list.txt")
             (listContent ((M.scenes.enumFrom 0).map
               (fun p => pjoin tmp (segName p.1)))),
           .spawn "ffmpeg"
             (concatArgs (pjoin tmp "list.txt") (pjoin tmp "output.mp4")) tmp],
         .error (.ffmpeg
           (exec (concatArgs (pjoin tmp "list.txt") (pjoin tmp "output.mp4"))).code
           (exec (concatArgs (pjoin tmp "list.txt")
             (pjoin tmp "output.mp4"))).stderr))) := by
  constructor
  · intro jx sc hj hok hfail
    have hok0 : ∀ k s2, k < jx → M.scenes[k]? = some s2 →
        (exec (sceneArgs tmp (stagedImages files) (stagedAudios files)
          (0 + k) s2)).code = 0 := by
      intro k s2 hk hks
      simpa using hok k s2 hk hks
    have hfail0 : (exec (sceneArgs tmp (stagedImages files)
        (stagedAudios files) (0 + jx) sc)).code ≠ 0 := by
      simpa using hfail
    have hloop := encodeLoop_fail exec tmp (stagedImages files)
      (stagedAudios files) M.scenes 0 jx sc hj hok0 hfail0
    simp only [renderMp4, hparse]
    rw [if_neg (fun h => h hcount)]
    rw [hloop]
    simp
  · intro hok hfail
    have hok0 : ∀ k s2, M.scenes[k]? = some s2 →
        (exec (sceneArgs tmp (stagedImages files) (stagedAudios files)
          (0 + k) s2)).code = 0 := by
      intro k s2 hks
      simpa using hok k s2 hks
    have hloop := encodeLoop_ok exec tmp (stagedImages files)
      (stagedAudios files) M.scenes 0 hok0
    simp only [renderMp4, hparse]
    rw [if_neg (fun h => h hcount)]
    rw [hloop]
    simp only [run]
    rw [if_neg hfail]

/-- The proof of `claim_C7_amended` applied at the failing render of
`claim_C7_counterexample`: scene 0 fails, the trace is cut after its
spawn, and the error carries exit code 1 and the stderr excerpt. -/
theorem claim_C7_amended_witness :
    renderMp4 (execFailSeg "/tmp/cs/seg_000.mp4") "/tmp/cs" twoImages
        (some mj2) =
      (preEvents "/tmp/cs" ++
        ((([⟨5, false⟩, ⟨6, false⟩] : List Scene).take 1).enumFrom 0).map
          (sceneSpawn "/tmp/cs" (stagedImages twoImages)
            (stagedAudios twoImages)),
       .error (.ffmpeg 1 "boom")) :=
  (claim_C7_amended (execFailSeg "/tmp/cs/seg_000.mp4") "/tmp/cs" twoImages
    mj2 ⟨[⟨5, false⟩, ⟨6, false⟩]⟩ rfl (by decide)).1 0 ⟨5, false⟩ rfl
    (fun k s2 hk _ => absurd hk (Nat.not_lt_zero k)) (by decide)

/-- C8: scene order is preserved end-to-end: on a successful render the
list file is written with the segment paths in scene order (its i-th
entry is segment i's path), the stream-copy concat invocation that
joins them in list order follows in the trace, and the joined file is
what the render returns. -/
theorem claim_C8 (exec : List Arg → RunRes) (tmp : String) (files : Files)
    (j : Json) (M : Manifest)
    (hparse : Manifest.parse j = .ok M)
    (hcount : (stagedImages files).length = M.scenes.length)
    (hexec : ∀ a, (exec a).code = 0) :
    Event.writeFile (pjoin tmp "list.txt")
        (listContent ((List.range M.scenes.length).map
          (fun i => pjoin tmp (segName i))))
      ∈ (renderMp4 exec tmp files (some j)).1 ∧
    Event.spawn "ffmpeg"
        (concatArgs (pjoin tmp "list.txt") (pjoin tmp "output.mp4")) tmp
      ∈ (renderMp4 exec tmp files (some j)).1 ∧
    (∀ i, i < M.scenes.length →
      ((List.range M.scenes.length).map
        (fun k => pjoin tmp (segName k)))[i]? =
        some (pjoin tmp (segName i))) ∧
    (renderMp4 exec tmp files (some j)).2 = .ok (pjoin tmp "output.mp4") := by
  rw [renderMp4_success exec tmp files j M hparse hcount hexec]
  refine ⟨?_, ?_, ?_, rfl⟩
  · rw [← enumFrom_segPaths]
    refine List.mem_append.mpr (Or.inl (List.mem_append.mpr (Or.inl
      (List.mem_append.mpr (Or.inr ?_)))))
    simp
  · refine List.mem_append.mpr (Or.inl (List.mem_append.mpr (Or.inl
      (List.mem_append.mpr (Or.inr ?_)))))
    simp
  · intro i hi
    simp [List.getElem?_range hi]

theorem claim_C8_witness :
    Event.writeFile (pjoin "/tmp/cs" "list.txt")
        (listContent ((List.range 2).map
          (fun i => pjoin "/tmp/cs" (segName i))))
      ∈ (renderMp4 okExec "/tmp/cs" twoImages (some mj2)).1 :=
  (claim_C8 okExec "/tmp/cs" twoImages mj2 ⟨[⟨5, false⟩, ⟨6, false⟩]⟩ rfl
    (by decide) (fun _ => rfl)).1

/-- C9: supplying fewer audio files than images is not an error: with
all subprocesses succeeding the render returns the joined file, and
every scene whose index is at or beyond the audio count is encoded with
the silent (no audio input) argument template. -/
theorem claim_C9 (exec : List Arg → RunRes) (tmp : String) (files : Files)
    (j : Json) (M : Manifest)
    (hparse : Manifest.parse j = .ok M)
    (hcount : (stagedImages files).length = M.scenes.length)
    (hexec : ∀ a, (exec a).code = 0)
    (hfewer : (stagedAudios files).length < (stagedImages files).length) :
    (renderMp4 exec tmp files (some j)).2 = .ok (pjoin tmp "output.mp4") ∧
    ∀ i sc, M.scenes[i]? = some sc → (stagedAudios files).length ≤ i →
      Event.spawn "ffmpeg"
          (encodeArgs (imagePathAt (stagedImages files) i) none
            sc.duration_sec (pjoin tmp (segName i))) tmp
        ∈ (renderMp4 exec tmp files (some j)).1 := by
  rw [renderMp4_success exec tmp files j M hparse hcount hexec]
  refine ⟨rfl, ?_⟩
  intro i sc hi hge
  have hnone : (stagedAudios files)[i]? = none := List.getElem?_eq_none hge
  have hargs : sceneArgs tmp (stagedImages files) (stagedAudios files) i sc =
      encodeArgs (imagePathAt (stagedImages files) i) none sc.duration_sec
        (pjoin tmp (segName i)) := by
    unfold sceneArgs
    rw [hnone]
    rfl
  rw [← hargs]
  refine List.mem_append.mpr (Or.inl (List.mem_append.mpr (Or.inl
    (List.mem_append.mpr (Or.inl (List.mem_append.mpr (Or.inr ?_)))))))
  exact List.mem_map_of_mem _ (mem_enumFrom_zero hi)

theorem claim_C9_witness :
    Event.spawn "ffmpeg"
        (encodeArgs (imagePathAt (stagedImages twoImages) 1) none 6
          (pjoin "/tmp/cs" (segName 1))) "/tmp/cs"
      ∈ (renderMp4 okExec "/tmp/cs" twoImages (some mj2)).1 :=
  (claim_C9 okExec "/tmp/cs" twoImages mj2 ⟨[⟨5, false⟩, ⟨6, false⟩]⟩ rfl
    (by decide) (fun _ => rfl) (by decide)).2 1 ⟨6, false⟩ rfl (by decide)

end CreatorStation
